import Mathlib

/-!
Verification of the Reservoir SDK core: route construction and validation,
route mid-price composition, router call encoding, and constant-product
curve quoting.  Definitions embed the TypeScript sources (`route.ts`,
`router.ts`, `constants.ts`); components that live outside the embedded
sources (sdk-core `Price`, the `Trade` slippage bounds, the pair curve
math) are modelled from the design specification and say so in their doc
comments.
-/

namespace Reservoir

/-- A token: chain identifier plus address (`@reservoir-labs/sdk-core` `Token`).
Two tokens are equal iff chain id and (canonicalized) address match. -/
structure Token where
  chainId : Nat
  address : String
deriving DecidableEq

/-- A currency is either the chain's native asset or a token; `wrapped` is the
underlying tradable token (for the native asset, the wrapped-native token;
for a token, itself), mirroring sdk-core `Currency.wrapped`. -/
structure Currency where
  isNative : Bool
  wrapped : Token
deriving DecidableEq

/-- Modelled from the spec: a `Price` is a ratio `numerator/denominator`
between a base and a quote currency (§3).  The quote currency is optional
because `Route` accepts an undefined output, which flows into the Price the
route mid-price constructs. -/
structure Price where
  base : Currency
  quote : Option Currency
  numerator : Nat
  denominator : Nat
deriving DecidableEq

/-- Modelled from the spec: Price composition across hops multiplies the
numerators and the denominators and keeps the outer base/quote (§3, §4.2). -/
def Price.multiply (a b : Price) : Price :=
  { base := a.base, quote := b.quote
    numerator := a.numerator * b.numerator
    denominator := a.denominator * b.denominator }

/-- A pair snapshot.  The entity class itself is not among the embedded
sources; the fields follow the spec's data model (§3): identity
`(chainId, token0, token1, curveId)`, raw reserves, and the two stable-curve
directional spot prices (whose exact stable-curve formula the spec leaves
open, §9) carried as data. -/
structure Pair where
  chainId : Nat
  token0 : Token
  token1 : Token
  curveId : Nat
  reserve0 : Nat
  reserve1 : Nat
  token0Price : Price
  token1Price : Price
deriving DecidableEq

/-- Modelled from the spec: a pair involves a token iff the token is one of
its two pool tokens (`Pair.involvesToken`). -/
def involvesToken (p : Pair) (t : Token) : Bool :=
  t == p.token0 || t == p.token1

/-- The named route-construction errors of the error taxonomy (§7),
corresponding to the `route.ts` invariant messages `PAIRS`, `CHAIN_IDS`,
`INPUT`, `OUTPUT`, `PATH`. -/
inductive RouteError where
  | EmptyRoute
  | ChainIdMismatch
  | InputNotInRoute
  | OutputNotInRoute
  | DisconnectedPath
deriving DecidableEq

/-- A constructed route: the validated pair sequence, the derived token
path, and the resolved input/output.  The output is optional because the
constructor only checks it when it is defined. -/
structure Route where
  pairs : List Pair
  path : List Token
  input : Currency
  output : Option Currency
deriving DecidableEq

/-- The path-building loop of the `Route` constructor: starting from the
wrapped input token, each pair must contain the running token and
contributes its other token to the path (invariant message `PATH`). -/
def buildPath (t : Token) : List Pair → Except RouteError (List Token)
  | [] => .ok [t]
  | p :: ps =>
    if t == p.token0 then
      match buildPath p.token1 ps with
      | .ok rest => .ok (t :: rest)
      | .error e => .error e
    else if t == p.token1 then
      match buildPath p.token0 ps with
      | .ok rest => .ok (t :: rest)
      | .error e => .error e
    else .error .DisconnectedPath

/-- The `Route` constructor from `route.ts`: validates, in order, that the
pair list is non-empty, that all pairs share the first pair's chain id, that
the first pair involves the wrapped input token, that the last pair involves
the wrapped output token when an output is given, and then builds the path
pair by pair. -/
def mkRoute (pairs : List Pair) (input : Currency) (output : Option Currency) :
    Except RouteError Route :=
  match pairs with
  | [] => .error .EmptyRoute
  | p0 :: rest =>
    if (p0 :: rest).all (fun p => p.chainId == p0.chainId) then
      if involvesToken p0 input.wrapped then
        if (match output with
            | none => true
            | some o => involvesToken ((p0 :: rest).getLast (List.cons_ne_nil p0 rest)) o.wrapped) then
          match buildPath input.wrapped (p0 :: rest) with
          | .ok path => .ok { pairs := p0 :: rest, path := path, input := input, output := output }
          | .error e => .error e
        else .error .OutputNotInRoute
      else .error .InputNotInRoute
    else .error .ChainIdMismatch

/-- The per-hop price helper `Route._getPrice` from `route.ts`: for the
constant-product curve the spot price is the reserve ratio oriented from the
given token; for the stable curve it is the pair's directional price; for
any other curve id the TypeScript leaves the local variable unassigned and
returns `undefined`, modelled as `none`. -/
def getPrice (token : Token) (pair : Pair) : Option Price :=
  if pair.curveId = 0 then
    some (if token = pair.token0 then
      { base := ⟨false, pair.token0⟩, quote := some ⟨false, pair.token1⟩
        numerator := pair.reserve1, denominator := pair.reserve0 }
    else
      { base := ⟨false, pair.token1⟩, quote := some ⟨false, pair.token0⟩
        numerator := pair.reserve0, denominator := pair.reserve1 })
  else if pair.curveId = 1 then
    some (if token = pair.token0 then pair.token0Price else pair.token1Price)
  else none

/-- The list of per-hop prices `Route.midPrice` collects: hop `i` prices
`pairs[i]` oriented from `path[i]`.  A missing path entry poisons the list,
as accessing it would in the TypeScript. -/
def hopPrices : List Pair → List Token → List (Option Price)
  | [], _ => []
  | _ :: _, [] => [none]
  | p :: ps, t :: ts => getPrice t p :: hopPrices ps ts

/-- Collects a list of optional values, failing if any is missing.  This
models how an `undefined` hop price makes the TypeScript mid-price
computation fail (with a type error, not a named error) rather than produce
a value. -/
def seqOpt {α : Type} : List (Option α) → Option (List α)
  | [] => some []
  | none :: _ => none
  | some a :: os =>
    match seqOpt os with
    | some rest => some (a :: rest)
    | none => none

/-- `Route.midPrice` from `route.ts`: fold the per-hop prices with Price
multiplication and re-express the reduced fraction as a Price from the
route's input to its output.  `none` models the TypeScript failing on an
`undefined` hop price (or an empty pair list). -/
def Route.midPrice (r : Route) : Option Price :=
  match seqOpt (hopPrices r.pairs r.path) with
  | none => none
  | some [] => none
  | some (p :: rest) =>
    let reduced := rest.foldl Price.multiply p
    some { base := r.input, quote := r.output
           numerator := reduced.numerator, denominator := reduced.denominator }

/-! ### Router (call encoder), from `router.ts` -/

/-- A currency amount: a currency plus an exact raw integer quantity. -/
structure CurrencyAmount where
  currency : Currency
  quotient : Nat
deriving DecidableEq

/-- A slippage tolerance as an exact fraction `num/den` (sdk-core `Percent`). -/
structure Percent where
  num : Nat
  den : Nat
deriving DecidableEq

/-- The trade direction tag. -/
inductive TradeType where
  | EXACT_INPUT
  | EXACT_OUTPUT
deriving DecidableEq

/-- A trade: a route, a direction, and the input/output amounts.  The trade
entity's own construction (hop-by-hop quoting) is outside the embedded
sources; the router only reads these fields. -/
structure Trade where
  route : Route
  tradeType : TradeType
  inputAmount : CurrencyAmount
  outputAmount : CurrencyAmount
deriving DecidableEq

/-- Ceiling division on naturals. -/
def ceilDiv (a b : Nat) : Nat := (a + b - 1) / b

/-- Modelled from the spec: `maximumAmountIn(allowedSlippage)` is, for
EXACT_OUTPUT, the computed input amount increased by the slippage fraction
and rounded up; for EXACT_INPUT it is the exact supplied input (§4.3). -/
def Trade.maximumAmountIn (t : Trade) (s : Percent) : CurrencyAmount :=
  match t.tradeType with
  | .EXACT_INPUT => t.inputAmount
  | .EXACT_OUTPUT =>
    { currency := t.inputAmount.currency
      quotient := ceilDiv (t.inputAmount.quotient * (s.den + s.num)) s.den }

/-- Modelled from the spec: `minimumAmountOut(allowedSlippage)` is, for
EXACT_INPUT, the computed output amount reduced by the slippage fraction
and rounded down; for EXACT_OUTPUT it is the exact requested output (§4.3). -/
def Trade.minimumAmountOut (t : Trade) (s : Percent) : CurrencyAmount :=
  match t.tradeType with
  | .EXACT_OUTPUT => t.outputAmount
  | .EXACT_INPUT =>
    { currency := t.outputAmount.currency
      quotient := t.outputAmount.quotient * (s.den - s.num) / s.den }

/-- Options for producing the router call (`TradeOptions` in `router.ts`). -/
structure TradeOptions where
  allowedSlippage : Percent
  recipient : String
  feeOnTransfer : Option Bool
deriving DecidableEq

/-- One positional argument of the router call. -/
inductive CallArg where
  | str (s : String)
  | strs (l : List String)
  | nats (l : List Nat)
deriving DecidableEq

/-- The `args` field: either a positional argument list or, for a batched
multicall, a single encoded string. -/
inductive SwapArgs where
  | list (l : List CallArg)
  | single (s : String)
deriving DecidableEq

/-- The result of the router encoding (`SwapParameters` in `router.ts`). -/
structure SwapParameters where
  methodName : String
  args : SwapArgs
  value : String
deriving DecidableEq

/-- The single router-encoding error of the taxonomy (§7), raised by the
`ETHER_IN_OUT` invariant in `router.ts`. -/
inductive RouterError where
  | NativeInNativeOut
deriving DecidableEq

/-- `toHex` from `router.ts`: the amount's raw quantity in lowercase
hexadecimal with a `0x` front marker. -/
def toHex (a : CurrencyAmount) : String :=
  "0x" ++ (Nat.toDigits 16 a.quotient).asString

/-- `ZERO_HEX` from `router.ts`. -/
def ZERO_HEX : String := "0x0"

/-- The numeric value of one hexadecimal digit character. -/
def hexDigitVal (c : Char) : Nat :=
  if c.isDigit then c.toNat - 48 else c.toNat - 87

/-- Parsing of a `0x`-fronted hexadecimal string back to a natural number
(what `JSBI.BigInt` does to the hex-encoded amount in `router.ts`). -/
def fromHex (s : String) : Nat :=
  (s.toList.drop 2).foldl (fun acc c => 16 * acc + hexDigitVal c) 0

/-- Modelled from the spec: sdk-core address validation is out of scope
(§1); on an already-canonical recipient it is the identity. -/
def validateAndParseAddress (a : String) : String := a

/-- Modelled from the spec: the encoded "unwrap native asset" auxiliary
call for an amount and a recipient (§4.4 step 5).  The byte-level encoding
lives in the external `payments` package; any injective rendering serves. -/
def encodeUnwrapWETH9 (amount : Nat) (recipient : String) : String :=
  "unwrapWETH9(" ++ toString amount ++ "," ++ recipient ++ ")"

/-- Modelled from the spec: the batched multicall encoding of a list of
calls, in order (§4.4 step 6); the byte-level encoding lives in the
external `multicall` package. -/
def encodeMulticall (calldatas : List String) : String :=
  "multicall(" ++ String.intercalate "," calldatas ++ ")"

/-- `Router.swapCallParameters` from `router.ts`.  Note that the
`switch` statement's `calldatas.push()` calls pass no argument, so only the
unwrap call is ever accumulated, and the `calldatas.length > 1` multicall
branch requires more than one accumulated call. -/
def swapCallParameters (trade : Trade) (options : TradeOptions) :
    Except RouterError SwapParameters :=
  let etherIn := trade.inputAmount.currency.isNative
  let etherOut := trade.outputAmount.currency.isNative
  if etherIn && etherOut then
    .error .NativeInNativeOut
  else
    let toAddr := validateAndParseAddress options.recipient
    let amountIn := toHex (trade.maximumAmountIn options.allowedSlippage)
    let amountOut := toHex (trade.minimumAmountOut options.allowedSlippage)
    let path := trade.route.path.map Token.address
    let curveIds := trade.route.pairs.map Pair.curveId
    let value := if etherIn then amountIn else ZERO_HEX
    let swapCall : String × SwapArgs :=
      match trade.tradeType with
      | .EXACT_INPUT =>
        ("swapExactForVariable",
         .list [.str amountIn, .str amountOut, .strs path, .nats curveIds, .str toAddr])
      | .EXACT_OUTPUT =>
        ("swapVariableForExact",
         .list [.str amountOut, .str amountIn, .strs path, .nats curveIds, .str toAddr])
    let calldatas : List String :=
      if etherOut then [encodeUnwrapWETH9 (fromHex amountOut) options.recipient] else []
    let result : String × SwapArgs :=
      if calldatas.length > 1 then ("multicall", .single (encodeMulticall calldatas))
      else swapCall
    .ok { methodName := result.1, args := result.2, value := value }

/-! ### Constant-product curve math

The pair entity owning the curve math is not among the embedded sources;
the constant-product formulas below are modelled from the spec (§4.1). -/

/-- `FEE_ACCURACY` from `constants.ts`: the fee denominator (100%). -/
def FEE_ACCURACY : Nat := 1000000

/-- `MINIMUM_LIQUIDITY` from `constants.ts`. -/
def MINIMUM_LIQUIDITY : Nat := 1000

/-- `A_PRECISION` from `constants.ts`. -/
def A_PRECISION : Nat := 100

/-- Modelled from the spec: the constant-product exact-input quote (§4.1).
The fee is deducted from the input, then `x*y=k` is applied, the output
rounded down. -/
def quoteOutputForInput (rIn rOut fee amountIn : Nat) : Nat :=
  let amountInAfterFee := amountIn * (FEE_ACCURACY - fee)
  amountInAfterFee * rOut / (rIn * FEE_ACCURACY + amountInAfterFee)

/-- Modelled from the spec: the constant-product exact-output quote (§4.1),
the algebraic inverse of the exact-input formula, rounded up. -/
def quoteInputForOutput (rIn rOut fee amountOut : Nat) : Nat :=
  ceilDiv (amountOut * rIn * FEE_ACCURACY) ((rOut - amountOut) * (FEE_ACCURACY - fee))

/-! ### Specification-side route predicates (§4.2), to compare with the
constructor embedded from the source. -/

/-- Spec §4.2: all pairs share one chain id. -/
def allSameChainId : List Pair → Bool
  | [] => true
  | p :: ps => (p :: ps).all (fun q => q.chainId == p.chainId)

/-- Spec §4.2: the wrapped input token is contained in the first pair. -/
def inputInFirst (pairs : List Pair) (input : Currency) : Bool :=
  match pairs with
  | [] => false
  | p :: _ => involvesToken p input.wrapped

/-- Spec §4.2: the output token, when defined, is contained in the last pair. -/
def outputInLast (pairs : List Pair) (output : Option Currency) : Bool :=
  match output with
  | none => true
  | some o =>
    match pairs with
    | [] => false
    | p :: ps => involvesToken ((p :: ps).getLast (List.cons_ne_nil p ps)) o.wrapped

/-- Spec §4.2: each pair contains the running token and hands the chain on
through its other token, so the pairs form a connected path from the given
token. -/
def connectedFrom : Token → List Pair → Bool
  | _, [] => true
  | t, p :: ps =>
    if t == p.token0 then connectedFrom p.token1 ps
    else if t == p.token1 then connectedFrom p.token0 ps
    else false

/-! ### Concrete values used to instantiate the theorems -/

/-- Demo token A. -/
def tA : Token := ⟨1, "0xA"⟩

/-- Demo token B. -/
def tB : Token := ⟨1, "0xB"⟩

/-- Demo token C. -/
def tC : Token := ⟨1, "0xC"⟩

/-- Demo wrapped-native token. -/
def tW : Token := ⟨1, "0xWETH"⟩

/-- Demo token U. -/
def tU : Token := ⟨1, "0xU"⟩

/-- Token A as a currency. -/
def cA : Currency := ⟨false, tA⟩

/-- Token B as a currency. -/
def cB : Currency := ⟨false, tB⟩

/-- Token C as a currency. -/
def cC : Currency := ⟨false, tC⟩

/-- Token U as a currency. -/
def cU : Currency := ⟨false, tU⟩

/-- The native asset as a currency (wrapping to `tW`). -/
def cNative : Currency := ⟨true, tW⟩

/-- A placeholder stable-curve directional price for demo pairs that never
dispatch to it. -/
def dummyPrice : Price := ⟨cA, none, 0, 1⟩

/-- Demo constant-product pair A/B with reserves 1,000,000 / 950,000. -/
def pairAB : Pair :=
  { chainId := 1, token0 := tA, token1 := tB, curveId := 0
    reserve0 := 1000000, reserve1 := 950000
    token0Price := dummyPrice, token1Price := dummyPrice }

/-- Demo constant-product pair B/C with reserves 2,000,000 / 2,100,000. -/
def pairBC : Pair :=
  { chainId := 1, token0 := tB, token1 := tC, curveId := 0
    reserve0 := 2000000, reserve1 := 2100000
    token0Price := dummyPrice, token1Price := dummyPrice }

/-- Demo pair U/W (wrapped native on one side). -/
def pairUW : Pair :=
  { chainId := 1, token0 := tU, token1 := tW, curveId := 0
    reserve0 := 5000, reserve1 := 5000
    token0Price := dummyPrice, token1Price := dummyPrice }

/-- Demo pair with an unsupported curve id. -/
def pairCurve2 : Pair :=
  { chainId := 1, token0 := tA, token1 := tB, curveId := 2
    reserve0 := 1000, reserve1 := 1000
    token0Price := dummyPrice, token1Price := dummyPrice }

/-- The two-hop demo route A→B→C. -/
def routeABC : Route :=
  { pairs := [pairAB, pairBC], path := [tA, tB, tC], input := cA, output := some cC }

/-- A demo route over the unsupported-curve pair. -/
def routeCurve2 : Route :=
  { pairs := [pairCurve2], path := [tA, tB], input := cA, output := some cB }

/-- Demo route U→W. -/
def routeUW : Route :=
  { pairs := [pairUW], path := [tU, tW], input := cU, output := some cNative }

/-- Demo route W→U. -/
def routeWU : Route :=
  { pairs := [pairUW], path := [tW, tU], input := cNative, output := some cU }

/-- Demo options: zero slippage, recipient `0xR`. -/
def optsDemo : TradeOptions :=
  { allowedSlippage := ⟨0, 100⟩, recipient := "0xR", feeOnTransfer := none }

/-- Demo EXACT_INPUT trade with native input and non-native output. -/
def tradeNativeIn : Trade :=
  { route := routeWU, tradeType := .EXACT_INPUT
    inputAmount := ⟨cNative, 1000⟩, outputAmount := ⟨cU, 900⟩ }

/-- Demo EXACT_INPUT trade with non-native input and native output. -/
def tradeNativeOut : Trade :=
  { route := routeUW, tradeType := .EXACT_INPUT
    inputAmount := ⟨cU, 1000⟩, outputAmount := ⟨cNative, 900⟩ }

/-- Demo trade with native input and native output. -/
def tradeNativeBoth : Trade :=
  { route := routeUW, tradeType := .EXACT_INPUT
    inputAmount := ⟨cNative, 1000⟩, outputAmount := ⟨cNative, 900⟩ }

/-- Demo EXACT_OUTPUT trade along A→B→C. -/
def tradeExactOut : Trade :=
  { route := routeABC, tradeType := .EXACT_OUTPUT
    inputAmount := ⟨cA, 500⟩, outputAmount := ⟨cC, 400⟩ }

/-! ### Helper lemmas -/

theorem mkRoute_cons (p0 : Pair) (rest : List Pair) (input : Currency)
    (output : Option Currency) :
    mkRoute (p0 :: rest) input output =
      (if allSameChainId (p0 :: rest) then
        (if inputInFirst (p0 :: rest) input then
          (if outputInLast (p0 :: rest) output then
            (match buildPath input.wrapped (p0 :: rest) with
             | .ok path => .ok { pairs := p0 :: rest, path := path, input := input, output := output }
             | .error e => .error e)
           else .error .OutputNotInRoute)
         else .error .InputNotInRoute)
       else .error .ChainIdMismatch) := by
  cases output <;> rfl

theorem buildPath_error_eq (t : Token) (ps : List Pair) (e : RouteError)
    (h : buildPath t ps = .error e) : e = .DisconnectedPath := by
  induction ps generalizing t with
  | nil => simp [buildPath] at h
  | cons p ps ih =>
    simp only [buildPath] at h
    by_cases h0 : t == p.token0
    · rw [if_pos h0] at h
      cases hb : buildPath p.token1 ps with
      | ok l => rw [hb] at h; exact absurd h (by simp)
      | error e' => rw [hb] at h; cases h; exact ih _ hb
    · rw [if_neg h0] at h
      by_cases h1 : t == p.token1
      · rw [if_pos h1] at h
        cases hb : buildPath p.token0 ps with
        | ok l => rw [hb] at h; exact absurd h (by simp)
        | error e' => rw [hb] at h; cases h; exact ih _ hb
      · rw [if_neg h1] at h
        cases h; rfl

theorem buildPath_isOk_iff (t : Token) (ps : List Pair) :
    (∃ path, buildPath t ps = .ok path) ↔ connectedFrom t ps = true := by
  induction ps generalizing t with
  | nil => simp [buildPath, connectedFrom]
  | cons p ps ih =>
    simp only [buildPath, connectedFrom]
    by_cases h0 : t == p.token0
    · rw [if_pos h0, if_pos h0]
      cases hb : buildPath p.token1 ps with
      | ok l => simp [← ih, hb]
      | error e' => simp [← ih, hb]
    · rw [if_neg h0, if_neg h0]
      by_cases h1 : t == p.token1
      · rw [if_pos h1, if_pos h1]
        cases hb : buildPath p.token0 ps with
        | ok l => simp [← ih, hb]
        | error e' => simp [← ih, hb]
      · rw [if_neg h1, if_neg h1]
        simp

theorem mkRoute_ok_inv {pairs : List Pair} {input : Currency}
    {output : Option Currency} {r : Route}
    (h : mkRoute pairs input output = .ok r) :
    pairs ≠ [] ∧ r.pairs = pairs ∧ r.input = input ∧ r.output = output ∧
    buildPath input.wrapped pairs = .ok r.path ∧
    allSameChainId pairs = true ∧ inputInFirst pairs input = true ∧
    outputInLast pairs output = true := by
  cases pairs with
  | nil => exact absurd h (by simp [mkRoute])
  | cons p0 rest =>
    rw [mkRoute_cons] at h
    split at h
    case isFalse => exact absurd h (by simp)
    case isTrue hc =>
      split at h
      case isFalse => exact absurd h (by simp)
      case isTrue hi =>
        split at h
        case isFalse => exact absurd h (by simp)
        case isTrue ho =>
          split at h
          case h_2 e hb => exact absurd h (by simp)
          case h_1 path hb =>
            cases h
            exact ⟨by simp, rfl, rfl, rfl, hb, hc, hi, ho⟩

theorem buildPath_length {t : Token} {ps : List Pair} {path : List Token}
    (h : buildPath t ps = .ok path) : path.length = ps.length + 1 := by
  induction ps generalizing t path with
  | nil => simp only [buildPath] at h; cases h; rfl
  | cons p ps ih =>
    simp only [buildPath] at h
    split at h
    · split at h
      case h_1 rest hb => cases h; simp [ih hb]
      case h_2 => exact absurd h (by simp)
    · split at h
      · split at h
        case h_1 rest hb => cases h; simp [ih hb]
        case h_2 => exact absurd h (by simp)
      · exact absurd h (by simp)

theorem buildPath_head {t : Token} {ps : List Pair} {path : List Token}
    (h : buildPath t ps = .ok path) : path.head? = some t := by
  induction ps generalizing t path with
  | nil => simp only [buildPath] at h; cases h; rfl
  | cons p ps ih =>
    simp only [buildPath] at h
    split at h
    · split at h
      case h_1 rest hb => cases h; rfl
      case h_2 => exact absurd h (by simp)
    · split at h
      · split at h
        case h_1 rest hb => cases h; rfl
        case h_2 => exact absurd h (by simp)
      · exact absurd h (by simp)

theorem buildPath_hops {t : Token} {ps : List Pair} {path : List Token}
    (h : buildPath t ps = .ok path) :
    ∀ i, i < ps.length → ∃ pi, ps.get? i = some pi ∧
      ((path.get? i = some pi.token0 ∧ path.get? (i + 1) = some pi.token1) ∨
       (path.get? i = some pi.token1 ∧ path.get? (i + 1) = some pi.token0)) := by
  induction ps generalizing t path with
  | nil => intro i hi; simp at hi
  | cons p ps ih =>
    simp only [buildPath] at h
    split at h
    case isTrue h0 =>
      split at h
      case h_1 rest hb =>
        cases h
        intro i hi
        cases i with
        | zero =>
          refine ⟨p, rfl, Or.inl ⟨?_, ?_⟩⟩
          · simpa using congrArg some (eq_of_beq h0)
          · have := buildPath_head hb
            cases rest with
            | nil => simp at this
            | cons a l => simpa using this
        | succ j =>
          have hj : j < ps.length := by simpa using hi
          obtain ⟨pi, hpi, hrel⟩ := ih hb j hj
          exact ⟨pi, by simpa using hpi, by simpa using hrel⟩
      case h_2 => exact absurd h (by simp)
    case isFalse h0 =>
      split at h
      case isTrue h1 =>
        split at h
        case h_1 rest hb =>
          cases h
          intro i hi
          cases i with
          | zero =>
            refine ⟨p, rfl, Or.inr ⟨?_, ?_⟩⟩
            · simpa using congrArg some (eq_of_beq h1)
            · have := buildPath_head hb
              cases rest with
              | nil => simp at this
              | cons a l => simpa using this
          | succ j =>
            have hj : j < ps.length := by simpa using hi
            obtain ⟨pi, hpi, hrel⟩ := ih hb j hj
            exact ⟨pi, by simpa using hpi, by simpa using hrel⟩
        case h_2 => exact absurd h (by simp)
      case isFalse => exact absurd h (by simp)

theorem mkRoute_error_iff (pairs : List Pair) (input : Currency)
    (output : Option Currency) :
    (mkRoute pairs input output = .error .EmptyRoute ↔ pairs = [])
  ∧ (mkRoute pairs input output = .error .ChainIdMismatch ↔
      pairs ≠ [] ∧ allSameChainId pairs = false)
  ∧ (mkRoute pairs input output = .error .InputNotInRoute ↔
      pairs ≠ [] ∧ allSameChainId pairs = true ∧ inputInFirst pairs input = false)
  ∧ (mkRoute pairs input output = .error .OutputNotInRoute ↔
      pairs ≠ [] ∧ allSameChainId pairs = true ∧ inputInFirst pairs input = true ∧
      outputInLast pairs output = false)
  ∧ (mkRoute pairs input output = .error .DisconnectedPath ↔
      pairs ≠ [] ∧ allSameChainId pairs = true ∧ inputInFirst pairs input = true ∧
      outputInLast pairs output = true ∧ connectedFrom input.wrapped pairs = false)
  ∧ ((∃ r, mkRoute pairs input output = .ok r) ↔
      pairs ≠ [] ∧ allSameChainId pairs = true ∧ inputInFirst pairs input = true ∧
      outputInLast pairs output = true ∧ connectedFrom input.wrapped pairs = true) := by
  cases pairs with
  | nil =>
    refine ⟨by simp [mkRoute], by simp [mkRoute], by simp [mkRoute],
            by simp [mkRoute], by simp [mkRoute], by simp [mkRoute]⟩
  | cons p0 rest =>
    rw [mkRoute_cons]
    by_cases hc : allSameChainId (p0 :: rest)
    · rw [if_pos hc]
      by_cases hi : inputInFirst (p0 :: rest) input
      · rw [if_pos hi]
        by_cases ho : outputInLast (p0 :: rest) output
        · rw [if_pos ho]
          cases hb : buildPath input.wrapped (p0 :: rest) with
          | ok path =>
            have hconn : connectedFrom input.wrapped (p0 :: rest) = true :=
              (buildPath_isOk_iff _ _).mp ⟨path, hb⟩
            simp [hb, hc, hi, ho, hconn]
          | error e =>
            have he : e = .DisconnectedPath := buildPath_error_eq _ _ _ hb
            subst he
            have hconn : connectedFrom input.wrapped (p0 :: rest) = false := by
              by_contra hne
              have : connectedFrom input.wrapped (p0 :: rest) = true := by
                cases hx : connectedFrom input.wrapped (p0 :: rest)
                · exact absurd hx hne
                · rfl
              obtain ⟨path, hp⟩ := (buildPath_isOk_iff _ _).mpr this
              rw [hp] at hb
              exact absurd hb (by simp)
            simp [hb, hc, hi, ho, hconn]
        · rw [if_neg ho]
          simp only [Bool.not_eq_true] at ho
          simp [hc, hi, ho]
      · rw [if_neg hi]
        simp only [Bool.not_eq_true] at hi
        simp [hc, hi]
    · rw [if_neg hc]
      simp only [Bool.not_eq_true] at hc
      simp [hc]

theorem seqOpt_eq_none_of_mem {α : Type} {l : List (Option α)}
    (h : none ∈ l) : seqOpt l = none := by
  induction l with
  | nil => cases h
  | cons o os ih =>
    rcases List.mem_cons.mp h with h0 | hmem
    · subst h0; rfl
    · cases o with
      | none => rfl
      | some a => simp [seqOpt, ih hmem]

theorem seqOpt_isSome {α : Type} {l : List (Option α)}
    (h : ∀ o ∈ l, Option.isSome o = true) :
    ∃ xs, seqOpt l = some xs ∧ xs.length = l.length := by
  induction l with
  | nil => exact ⟨[], rfl, rfl⟩
  | cons o os ih =>
    obtain ⟨xs, hxs, hlen⟩ := ih (fun x hx => h x (List.mem_cons_of_mem _ hx))
    have ho := h o (List.mem_cons_self _ _)
    cases o with
    | none => simp at ho
    | some a => exact ⟨a :: xs, by simp [seqOpt, hxs], by simp [hlen]⟩

theorem getPrice_none {pair : Pair} (h0 : pair.curveId ≠ 0) (h1 : pair.curveId ≠ 1)
    (t : Token) : getPrice t pair = none := by
  simp [getPrice, h0, h1]

theorem getPrice_isSome {pair : Pair} (h : pair.curveId = 0 ∨ pair.curveId = 1)
    (t : Token) : (getPrice t pair).isSome = true := by
  rcases h with h | h <;> simp [getPrice, h]

theorem hopPrices_none_mem {pairs : List Pair} {path : List Token} {p : Pair}
    (hp : p ∈ pairs) (hlen : pairs.length < path.length)
    (hnone : ∀ t, getPrice t p = none) : none ∈ hopPrices pairs path := by
  induction pairs generalizing path with
  | nil => cases hp
  | cons q qs ih =>
    cases path with
    | nil => simp at hlen
    | cons t ts =>
      rcases List.mem_cons.mp hp with h0 | hmem
      · subst h0
        simp [hopPrices, hnone t]
      · exact List.mem_cons_of_mem _ (ih hmem (by simpa using hlen))

theorem hopPrices_all_isSome {pairs : List Pair} {path : List Token}
    (hcurve : ∀ p ∈ pairs, p.curveId = 0 ∨ p.curveId = 1)
    (hlen : pairs.length < path.length) :
    ∀ o ∈ hopPrices pairs path, Option.isSome o = true := by
  induction pairs generalizing path with
  | nil => intro o ho; simp [hopPrices] at ho
  | cons q qs ih =>
    cases path with
    | nil => simp at hlen
    | cons t ts =>
      intro o ho
      rcases List.mem_cons.mp ho with h0 | hmem
      · subst h0
        exact getPrice_isSome (hcurve q (List.mem_cons_self _ _)) t
      · exact ih (fun p hp => hcurve p (List.mem_cons_of_mem _ hp))
          (by simpa using hlen) o hmem

theorem hopPrices_length {pairs : List Pair} {path : List Token}
    (hlen : pairs.length < path.length) :
    (hopPrices pairs path).length = pairs.length := by
  induction pairs generalizing path with
  | nil => rfl
  | cons q qs ih =>
    cases path with
    | nil => simp at hlen
    | cons t ts => simp [hopPrices, ih (by simpa using hlen)]

theorem foldl_multiply_numerator (p : Price) (rest : List Price) :
    (rest.foldl Price.multiply p).numerator =
      p.numerator * (rest.map Price.numerator).prod := by
  induction rest generalizing p with
  | nil => simp
  | cons q qs ih =>
    simp only [List.foldl_cons, List.map_cons, List.prod_cons, ih]
    simp [Price.multiply, Nat.mul_assoc]

theorem foldl_multiply_denominator (p : Price) (rest : List Price) :
    (rest.foldl Price.multiply p).denominator =
      p.denominator * (rest.map Price.denominator).prod := by
  induction rest generalizing p with
  | nil => simp
  | cons q qs ih =>
    simp only [List.foldl_cons, List.map_cons, List.prod_cons, ih]
    simp [Price.multiply, Nat.mul_assoc]

theorem swapCallParameters_eq (trade : Trade) (options : TradeOptions)
    (h : (trade.inputAmount.currency.isNative && trade.outputAmount.currency.isNative) = false) :
    swapCallParameters trade options = .ok
      { methodName :=
          match trade.tradeType with
          | .EXACT_INPUT => "swapExactForVariable"
          | .EXACT_OUTPUT => "swapVariableForExact"
        args :=
          match trade.tradeType with
          | .EXACT_INPUT => .list
              [.str (toHex (trade.maximumAmountIn options.allowedSlippage)),
               .str (toHex (trade.minimumAmountOut options.allowedSlippage)),
               .strs (trade.route.path.map Token.address),
               .nats (trade.route.pairs.map Pair.curveId),
               .str (validateAndParseAddress options.recipient)]
          | .EXACT_OUTPUT => .list
              [.str (toHex (trade.minimumAmountOut options.allowedSlippage)),
               .str (toHex (trade.maximumAmountIn options.allowedSlippage)),
               .strs (trade.route.path.map Token.address),
               .nats (trade.route.pairs.map Pair.curveId),
               .str (validateAndParseAddress options.recipient)]
        value :=
          if trade.inputAmount.currency.isNative then
            toHex (trade.maximumAmountIn options.allowedSlippage)
          else ZERO_HEX } := by
  cases htt : trade.tradeType <;>
    by_cases ho : trade.outputAmount.currency.isNative <;>
      simp [swapCallParameters, h, ho, htt] <;> simp_all

theorem swapCallParameters_ok_cond {trade : Trade} {options : TradeOptions}
    {r : SwapParameters} (h : swapCallParameters trade options = .ok r) :
    (trade.inputAmount.currency.isNative && trade.outputAmount.currency.isNative) = false := by
  by_cases hi : trade.inputAmount.currency.isNative <;>
    by_cases ho : trade.outputAmount.currency.isNative <;> simp [hi, ho]
  simp [swapCallParameters, hi, ho] at h

theorem ceilDiv_le {a b x : Nat} (hb : 0 < b) (h : a ≤ x * b) : ceilDiv a b ≤ x := by
  have hmul : (x + 1) * b = x * b + b := by ring
  have hlt : a + b - 1 < (x + 1) * b := by omega
  have := (Nat.div_lt_iff_lt_mul hb).mpr hlt
  simpa [ceilDiv, Nat.lt_succ_iff] using this

/-- The expected encoder result for the demo trade with native input. -/
def spNativeIn : SwapParameters :=
  { methodName := "swapExactForVariable"
    args := .list [.str "0x3e8", .str "0x384", .strs ["0xWETH", "0xU"], .nats [0], .str "0xR"]
    value := "0x3e8" }

/-- The expected encoder result for the demo EXACT_OUTPUT trade. -/
def spExactOut : SwapParameters :=
  { methodName := "swapVariableForExact"
    args := .list [.str "0x190", .str "0x1f4", .strs ["0xA", "0xB", "0xC"], .nats [0, 0], .str "0xR"]
    value := "0x0" }

/-- Claim C4: `Router.swapCallParameters` raises the `NativeInNativeOut`
error if and only if both the trade's input currency and its output
currency are the chain's native-asset representation, and when it raises no
`SwapParameters` value is returned. -/
theorem router_native_in_native_out_iff (trade : Trade) (options : TradeOptions) :
    (swapCallParameters trade options = .error .NativeInNativeOut ↔
      trade.inputAmount.currency.isNative = true ∧
      trade.outputAmount.currency.isNative = true)
  ∧ (∀ p : SwapParameters,
      swapCallParameters trade options = .error .NativeInNativeOut →
      swapCallParameters trade options ≠ .ok p) := by
  constructor
  · by_cases hi : trade.inputAmount.currency.isNative <;>
      by_cases ho : trade.outputAmount.currency.isNative <;>
        simp [swapCallParameters, hi, ho]
  · intro p he hok
    rw [he] at hok
    exact absurd hok (by simp)

/-- Witness for C4 at a concrete native-in/native-out trade. -/
theorem router_native_in_native_out_iff_witness :
    tradeNativeBoth.inputAmount.currency.isNative = true ∧
    tradeNativeBoth.outputAmount.currency.isNative = true ∧
    swapCallParameters tradeNativeBoth optsDemo = .error .NativeInNativeOut :=
  ⟨rfl, rfl,
   (router_native_in_native_out_iff tradeNativeBoth optsDemo).1.mpr ⟨rfl, rfl⟩⟩

/-- Claim C2: the returned `value` equals the hex encoding of
`maximumAmountIn(allowedSlippage)` when the input currency is native and
the zero hex string otherwise; in particular an EXACT_INPUT trade with
native input, non-native output and zero slippage has `value` equal to the
hex encoding of the input amount and the non-batched swap method name. -/
theorem router_value_encoding (trade : Trade) (options : TradeOptions)
    (r : SwapParameters) (h : swapCallParameters trade options = .ok r) :
    (trade.inputAmount.currency.isNative = true →
       r.value = toHex (trade.maximumAmountIn options.allowedSlippage))
  ∧ (trade.inputAmount.currency.isNative = false → r.value = ZERO_HEX)
  ∧ (trade.tradeType = .EXACT_INPUT → trade.inputAmount.currency.isNative = true →
       trade.outputAmount.currency.isNative = false →
       options.allowedSlippage.num = 0 →
       r.value = toHex trade.inputAmount ∧ r.methodName = "swapExactForVariable") := by
  have hc := swapCallParameters_ok_cond h
  rw [swapCallParameters_eq _ _ hc] at h
  cases h
  refine ⟨fun hi => by simp [hi], fun hi => by simp [hi], fun htt hi ho hs => ?_⟩
  exact ⟨by simp [hi, Trade.maximumAmountIn, htt], by simp [htt]⟩

/-- Witness for C2 at a concrete EXACT_INPUT native-input trade with zero
slippage. -/
theorem router_value_encoding_witness :
    swapCallParameters tradeNativeIn optsDemo = .ok spNativeIn ∧
    spNativeIn.value = toHex tradeNativeIn.inputAmount ∧
    spNativeIn.methodName = "swapExactForVariable" := by
  have h : swapCallParameters tradeNativeIn optsDemo = .ok spNativeIn := by rfl
  have h2 := (router_value_encoding tradeNativeIn optsDemo spNativeIn h).2.2 rfl rfl rfl rfl
  exact ⟨h, h2.1, h2.2⟩

/-- Claim C3: method name and positional argument layout are selected by
trade type: EXACT_INPUT yields the "swap exact for variable" method with
args `(amountIn, amountOut, path, curveIds, recipient)` and EXACT_OUTPUT
yields the "swap variable for exact" method with args
`(amountOut, amountIn, path, curveIds, recipient)`, where the amounts are
the slippage-adjusted bounds hex-encoded, the path is the route's token
addresses in order, and the curve ids are the per-hop array in order. -/
theorem router_method_selection (trade : Trade) (options : TradeOptions)
    (r : SwapParameters) (h : swapCallParameters trade options = .ok r) :
    (trade.tradeType = .EXACT_INPUT →
       r.methodName = "swapExactForVariable" ∧
       r.args = .list
         [.str (toHex (trade.maximumAmountIn options.allowedSlippage)),
          .str (toHex (trade.minimumAmountOut options.allowedSlippage)),
          .strs (trade.route.path.map Token.address),
          .nats (trade.route.pairs.map Pair.curveId),
          .str (validateAndParseAddress options.recipient)])
  ∧ (trade.tradeType = .EXACT_OUTPUT →
       r.methodName = "swapVariableForExact" ∧
       r.args = .list
         [.str (toHex (trade.minimumAmountOut options.allowedSlippage)),
          .str (toHex (trade.maximumAmountIn options.allowedSlippage)),
          .strs (trade.route.path.map Token.address),
          .nats (trade.route.pairs.map Pair.curveId),
          .str (validateAndParseAddress options.recipient)]) := by
  have hc := swapCallParameters_ok_cond h
  rw [swapCallParameters_eq _ _ hc] at h
  cases h
  constructor <;> intro htt <;> simp [htt]

/-- Witness for C3 at a concrete EXACT_OUTPUT trade. -/
theorem router_method_selection_witness :
    swapCallParameters tradeExactOut optsDemo = .ok spExactOut ∧
    spExactOut.methodName = "swapVariableForExact" := by
  have h : swapCallParameters tradeExactOut optsDemo = .ok spExactOut := by rfl
  exact ⟨h, ((router_method_selection tradeExactOut optsDemo spExactOut h).2 rfl).1⟩

/-- Claim C1, evaluated at a failing input: for a trade with non-native
input and native output the encoder returns the plain swap method with the
swap's own positional args — the computed unwrap call is dropped because
the swap calldata is never pushed, so no batched multicall wrapping two
calls is produced. -/
theorem router_unwrap_call_dropped :
    swapCallParameters tradeNativeOut optsDemo = .ok
      { methodName := "swapExactForVariable"
        args := .list [.str "0x3e8", .str "0x384", .strs ["0xU", "0xWETH"], .nats [0], .str "0xR"]
        value := "0x0" } ∧
    ("swapExactForVariable" : String) ≠ "multicall" := by
  exact ⟨by rfl, by decide⟩

/-- A pair on a different chain, for exercising the chain-id validation. -/
def pairChain2 : Pair :=
  { chainId := 2, token0 := tA, token1 := tB, curveId := 0
    reserve0 := 1000, reserve1 := 1000
    token0Price := dummyPrice, token1Price := dummyPrice }

/-- Claim C5: the `Route` constructor validates, in order, non-emptiness,
single chain id, input containment in the first pair, output containment in
the last pair, and consecutive connectivity; each violation fails fast with
the corresponding named error, and a route is produced exactly when all
validations pass. -/
theorem route_constructor_validation (pairs : List Pair) (input : Currency)
    (output : Option Currency) :
    (mkRoute pairs input output = .error .EmptyRoute ↔ pairs = [])
  ∧ (mkRoute pairs input output = .error .ChainIdMismatch ↔
      pairs ≠ [] ∧ allSameChainId pairs = false)
  ∧ (mkRoute pairs input output = .error .InputNotInRoute ↔
      pairs ≠ [] ∧ allSameChainId pairs = true ∧ inputInFirst pairs input = false)
  ∧ (mkRoute pairs input output = .error .OutputNotInRoute ↔
      pairs ≠ [] ∧ allSameChainId pairs = true ∧ inputInFirst pairs input = true ∧
      outputInLast pairs output = false)
  ∧ (mkRoute pairs input output = .error .DisconnectedPath ↔
      pairs ≠ [] ∧ allSameChainId pairs = true ∧ inputInFirst pairs input = true ∧
      outputInLast pairs output = true ∧ connectedFrom input.wrapped pairs = false)
  ∧ ((∃ r, mkRoute pairs input output = .ok r) ↔
      pairs ≠ [] ∧ allSameChainId pairs = true ∧ inputInFirst pairs input = true ∧
      outputInLast pairs output = true ∧ connectedFrom input.wrapped pairs = true) :=
  mkRoute_error_iff pairs input output

/-- Witness for C5: the validation characterization evaluated on concrete
routes exercising the empty, mismatched-chain, missing-input and successful
cases. -/
theorem route_constructor_validation_witness :
    mkRoute [] cA none = .error .EmptyRoute ∧
    mkRoute [pairAB, pairChain2] cA (some cB) = .error .ChainIdMismatch ∧
    mkRoute [pairAB, pairBC] cC (some cA) = .error .InputNotInRoute ∧
    (∃ r, mkRoute [pairAB, pairBC] cA (some cC) = .ok r) :=
  ⟨(route_constructor_validation [] cA none).1.mpr rfl,
   (route_constructor_validation [pairAB, pairChain2] cA (some cB)).2.1.mpr
     (by refine ⟨by simp, by decide⟩),
   (route_constructor_validation [pairAB, pairBC] cC (some cA)).2.2.1.mpr
     (by refine ⟨by simp, by decide, by decide⟩),
   (route_constructor_validation [pairAB, pairBC] cA (some cC)).2.2.2.2.2.mpr
     (by refine ⟨by simp, by decide, by decide, by decide, by decide⟩)⟩

/-- Claim C6: every successfully constructed route has a path of length
`pairs.length + 1` that begins with the wrapped input token, and at each
hop the path token is one of that pair's two tokens with the next path
token being the pair's other token. -/
theorem route_path_invariants (pairs : List Pair) (input : Currency)
    (output : Option Currency) (r : Route)
    (h : mkRoute pairs input output = .ok r) :
    r.path.length = r.pairs.length + 1
  ∧ r.path.head? = some input.wrapped
  ∧ ∀ i, i < r.pairs.length → ∃ pi, r.pairs.get? i = some pi ∧
      ((r.path.get? i = some pi.token0 ∧ r.path.get? (i + 1) = some pi.token1) ∨
       (r.path.get? i = some pi.token1 ∧ r.path.get? (i + 1) = some pi.token0)) := by
  obtain ⟨hne, hpairs, hinput, houtput, hbuild, _, _, _⟩ := mkRoute_ok_inv h
  refine ⟨?_, buildPath_head hbuild, ?_⟩
  · rw [hpairs]
    exact buildPath_length hbuild
  · rw [hpairs]
    exact buildPath_hops hbuild

/-- Witness for C6 at the concrete two-hop route A→B→C. -/
theorem route_path_invariants_witness :
    mkRoute [pairAB, pairBC] cA (some cC) = .ok routeABC ∧
    routeABC.path.length = routeABC.pairs.length + 1 ∧
    routeABC.path.head? = some cA.wrapped := by
  have h : mkRoute [pairAB, pairBC] cA (some cC) = .ok routeABC := by rfl
  obtain ⟨h1, h2, _⟩ := route_path_invariants _ _ _ _ h
  exact ⟨h, h1, h2⟩

/-- Claim C9: the output-containment check runs only when an output is
given: with an undefined output the constructor never raises
`OutputNotInRoute`, and when the remaining validations pass it succeeds
with an undefined output field. -/
theorem route_undefined_output (pairs : List Pair) (input : Currency) :
    (∀ e, mkRoute pairs input none = .error e → e ≠ .OutputNotInRoute)
  ∧ (pairs ≠ [] → allSameChainId pairs = true → inputInFirst pairs input = true →
      connectedFrom input.wrapped pairs = true →
      ∃ r, mkRoute pairs input none = .ok r ∧ r.output = none) := by
  constructor
  · intro e he hcontra
    subst hcontra
    have hiff := (mkRoute_error_iff pairs input none).2.2.2.1.mp he
    have ht : outputInLast pairs none = true := rfl
    rw [hiff.2.2.2] at ht
    exact absurd ht (by simp)
  · intro hne hc hi hconn
    have hol : outputInLast pairs none = true := rfl
    obtain ⟨r, hr⟩ := (mkRoute_error_iff pairs input none).2.2.2.2.2.mpr
      ⟨hne, hc, hi, hol, hconn⟩
    obtain ⟨_, _, _, hout, _⟩ := mkRoute_ok_inv hr
    exact ⟨r, hr, hout⟩

/-- Witness for C9 at a concrete one-pair route with no output. -/
theorem route_undefined_output_witness :
    ([pairAB] : List Pair) ≠ [] ∧ allSameChainId [pairAB] = true ∧
    inputInFirst [pairAB] cA = true ∧ connectedFrom cA.wrapped [pairAB] = true ∧
    ∃ r, mkRoute [pairAB] cA none = .ok r ∧ r.output = none :=
  ⟨by simp, by decide, by decide, by decide,
   (route_undefined_output [pairAB] cA).2 (by simp) (by decide) (by decide) (by decide)⟩

/-- The hop-1 spot price of the demo route, A priced into B. -/
def priceAB : Price := ⟨cA, some cB, 950000, 1000000⟩

/-- The hop-2 spot price of the demo route, B priced into C. -/
def priceBC : Price := ⟨cB, some cC, 2100000, 2000000⟩

/-- Claim C7: the route mid-price is the product, in path order, of the
per-hop spot prices (each oriented from that hop's input token), with the
numerators and denominators multiplied through and the result re-expressed
as a price from the route's overall input to its overall output. -/
theorem route_midPrice_composition (r : Route) (ps : List Price)
    (h : seqOpt (hopPrices r.pairs r.path) = some ps) (hne : ps ≠ []) :
    r.midPrice = some
      { base := r.input, quote := r.output
        numerator := (ps.map Price.numerator).prod
        denominator := (ps.map Price.denominator).prod } := by
  cases ps with
  | nil => exact absurd rfl hne
  | cons p rest =>
    simp only [Route.midPrice, h]
    simp [foldl_multiply_numerator, foldl_multiply_denominator]

/-- Witness for C7: on the two-hop route A→B→C with reserves
1,000,000/950,000 and 2,000,000/2,100,000, the mid-price equals the
composition of the two hop prices expressed in A/C terms. -/
theorem route_midPrice_composition_witness :
    seqOpt (hopPrices routeABC.pairs routeABC.path) = some [priceAB, priceBC] ∧
    routeABC.midPrice = some (priceAB.multiply priceBC) := by
  have h : seqOpt (hopPrices routeABC.pairs routeABC.path) = some [priceAB, priceBC] := by
    decide
  have h2 := route_midPrice_composition routeABC [priceAB, priceBC] h (by simp)
  refine ⟨h, ?_⟩
  rw [h2]
  decide

/-- Claim C10: the per-hop price helper is undefined off the two supported
curve ids: a constructed route containing a pair whose curve id is neither
0 nor 1 has an undefined hop price and an undefined mid-price (no named
error of the taxonomy is raised), while a route all of whose pairs use
curve id 0 or 1 has a defined mid-price. -/
theorem midPrice_curve_support (pairs : List Pair) (input : Currency)
    (output : Option Currency) (r : Route)
    (h : mkRoute pairs input output = .ok r) :
    (∀ p, p ∈ r.pairs → p.curveId ≠ 0 → p.curveId ≠ 1 →
       (∀ t, getPrice t p = none) ∧ r.midPrice = none)
  ∧ ((∀ p, p ∈ r.pairs → p.curveId = 0 ∨ p.curveId = 1) →
       ∃ q, r.midPrice = some q) := by
  obtain ⟨hne, hpairs, _, _, hbuild, _, _, _⟩ := mkRoute_ok_inv h
  have hlen : r.pairs.length < r.path.length := by
    rw [hpairs]
    have := buildPath_length hbuild
    omega
  constructor
  · intro p hp h0 h1
    refine ⟨getPrice_none h0 h1, ?_⟩
    have hmem : none ∈ hopPrices r.pairs r.path :=
      hopPrices_none_mem hp hlen (getPrice_none h0 h1)
    simp [Route.midPrice, seqOpt_eq_none_of_mem hmem]
  · intro hcurve
    obtain ⟨xs, hxs, hxlen⟩ := seqOpt_isSome (hopPrices_all_isSome hcurve hlen)
    have hxslen : xs.length = r.pairs.length := by
      rw [hxlen, hopPrices_length hlen]
    cases xs with
    | nil =>
      rw [hpairs] at hxslen
      cases pairs with
      | nil => exact absurd rfl hne
      | cons q qs => simp at hxslen
    | cons q rest =>
      exact ⟨{ base := r.input, quote := r.output
               numerator := (rest.foldl Price.multiply q).numerator
               denominator := (rest.foldl Price.multiply q).denominator },
             by simp only [Route.midPrice, hxs]⟩

/-- Witness for C10 at a concrete route over a pair with curve id 2. -/
theorem midPrice_curve_support_witness :
    mkRoute [pairCurve2] cA (some cB) = .ok routeCurve2 ∧
    routeCurve2.midPrice = none := by
  have h : mkRoute [pairCurve2] cA (some cB) = .ok routeCurve2 := by rfl
  have h2 := (midPrice_curve_support _ _ _ _ h).1 pairCurve2 (by decide)
    (by decide) (by decide)
  exact ⟨h, h2.2⟩

/-- Counterexample to C8 as stated: with reserves 1,000,000 / 1,000, fee
3,000 (0.3%) and input 1, the quoted output floors to 0, so the round trip
`quoteInputForOutput(quoteOutputForInput(1))` is 0, not at least 1. -/
theorem cp_roundtrip_ge_counterexample :
    quoteOutputForInput 1000000 1000 3000 1 = 0 ∧
    quoteInputForOutput 1000000 1000 3000 (quoteOutputForInput 1000000 1000 3000 1) = 0 ∧
    ¬ (quoteInputForOutput 1000000 1000 3000 (quoteOutputForInput 1000000 1000 3000 1) ≥ 1) := by
  refine ⟨by decide, by decide, by decide⟩

/-- Claim C8, amended: for all valid reserves, fee below `FEE_ACCURACY` and
positive input, the exact-input quote is the floored fee-adjusted
constant-product formula, the exact-output quote is its algebraic inverse
rounded up, the quoted output is strictly below the output reserve, and the
round trip `quoteInputForOutput(quoteOutputForInput(amountIn))` is at most
`amountIn` (instead of at least, which fails when rounding loses output). -/
theorem cp_quote_bounds (rIn rOut fee amountIn : Nat)
    (hrIn : 0 < rIn) (hrOut : 0 < rOut) (hfee : fee < FEE_ACCURACY)
    (hin : 0 < amountIn) :
    quoteOutputForInput rIn rOut fee amountIn =
      amountIn * (FEE_ACCURACY - fee) * rOut /
        (rIn * FEE_ACCURACY + amountIn * (FEE_ACCURACY - fee))
  ∧ quoteOutputForInput rIn rOut fee amountIn < rOut
  ∧ quoteInputForOutput rIn rOut fee (quoteOutputForInput rIn rOut fee amountIn) ≤
      amountIn := by
  have hFA : FEE_ACCURACY = 1000000 := rfl
  have hg : 0 < FEE_ACCURACY - fee := by omega
  have hD0 : 0 < rIn * FEE_ACCURACY + amountIn * (FEE_ACCURACY - fee) := by
    have : 0 < rIn * FEE_ACCURACY := Nat.mul_pos hrIn (by omega)
    omega
  have hout_def : quoteOutputForInput rIn rOut fee amountIn =
      amountIn * (FEE_ACCURACY - fee) * rOut /
        (rIn * FEE_ACCURACY + amountIn * (FEE_ACCURACY - fee)) := rfl
  refine ⟨hout_def, ?_, ?_⟩
  all_goals rw [hout_def]
  · rw [Nat.div_lt_iff_lt_mul hD0]
    have hpos : 0 < rOut * (rIn * FEE_ACCURACY) :=
      Nat.mul_pos hrOut (Nat.mul_pos hrIn (by omega))
    calc amountIn * (FEE_ACCURACY - fee) * rOut
        = rOut * (amountIn * (FEE_ACCURACY - fee)) := by ring
      _ < rOut * (rIn * FEE_ACCURACY) + rOut * (amountIn * (FEE_ACCURACY - fee)) := by
          omega
      _ = rOut * (rIn * FEE_ACCURACY + amountIn * (FEE_ACCURACY - fee)) := by ring
  · set g := FEE_ACCURACY - fee with hg_def
    set A := amountIn * g with hA_def
    set D0 := rIn * FEE_ACCURACY + A with hD0_def
    set out := A * rOut / D0 with hout_set
    have houtlt : out < rOut := by
      rw [hout_set, Nat.div_lt_iff_lt_mul hD0]
      have hpos : 0 < rOut * (rIn * FEE_ACCURACY) :=
        Nat.mul_pos hrOut (Nat.mul_pos hrIn (by omega))
      calc A * rOut = rOut * A := by ring
        _ < rOut * (rIn * FEE_ACCURACY) + rOut * A := by omega
        _ = rOut * D0 := by rw [hD0_def]; ring
    have hfloor : out * D0 ≤ A * rOut := by
      rw [hout_set]
      exact Nat.div_mul_le_self _ _
    show quoteInputForOutput rIn rOut fee out ≤ amountIn
    unfold quoteInputForOutput
    rw [← hg_def]
    apply ceilDiv_le
    · have h1 : 0 < rOut - out := by omega
      exact Nat.mul_pos h1 hg
    · obtain ⟨d, hd⟩ : ∃ d, rOut = out + d := ⟨rOut - out, by omega⟩
      rw [hd]
      have hd_eq : out + d - out = d := by omega
      rw [hd_eq]
      rw [hd, hD0_def, hA_def] at hfloor
      nlinarith [hfloor]

/-- Witness for the amended C8 at concrete reserves 1000/1000, fee 0.3%,
input 100. -/
theorem cp_quote_bounds_witness :
    quoteOutputForInput 1000 1000 3000 100 = 90 ∧
    quoteOutputForInput 1000 1000 3000 100 < 1000 ∧
    quoteInputForOutput 1000 1000 3000 (quoteOutputForInput 1000 1000 3000 100) ≤ 100 := by
  have h := cp_quote_bounds 1000 1000 3000 100 (by decide) (by decide) (by decide) (by decide)
  exact ⟨by decide, h.2.1, h.2.2⟩

end Reservoir
